import Mathlib

/-!
Verification of go-workers2 against its natural-language specification.

The development shallowly embeds the Go sources:
  * `scheduled.go` (the scheduled/retry poller, context passed as a parameter),
  * the duplicated `scheduledWorker` variant that stores the context in the
    struct at construction time,
  * the two duplicated `DecodeSidekiqArgs` implementations (one marshalling
    through an intermediate JSON map, one setting reflected fields directly),
  * `job_dispatcher.go` (`RegisterHandler` / `Dispatch`),
  * the retry-delay formula of the retry middleware (modelled from the spec,
    since the middleware source is not part of the analysed tree).

JSON values are modelled by an inductive `JVal` with numbers as rationals:
simplejson v0.5.0 (the version go.mod pins, built with its go1.1+ file under
go 1.13) decodes with `UseNumber`, so a JSON number is carried as a
`json.Number` literal; the rational model keeps its exact value, though not
its literal spelling (fractional spellings of integers such as 3.0 are
outside the model).
Messages are association lists of fields, matching simplejson objects.
Time is modelled by an explicit clock: `clock k` is the value returned by the
k-th wall-clock reading inside a poll cycle.
-/

/-- JSON values, as decoded by encoding/json with `UseNumber` into
`interface\x7b\x7d`: `null`, booleans, numbers (`json.Number` literals,
modelled exactly as rationals), strings, arrays and objects. -/
inductive JVal where
  | jnull : JVal
  | jbool : Bool → JVal
  | jnum : Rat → JVal
  | jstr : String → JVal
  | jarr : List JVal → JVal
  | jobj : List (String × JVal) → JVal

/-- A message payload: a JSON object, i.e. an association list of fields.
`NewMsg`/`ToJson` round-trip a payload, so payloads are modelled in parsed
form directly. -/
def Msg := List (String × JVal)

/-- simplejson `Get(key)` followed by a presence check: first binding of the
key, if any. -/
def msgLookup : Msg → String → Option JVal
  | [], _ => none
  | (k, v) :: rest, key => if k = key then some v else msgLookup rest key

/-- `message.Get("queue").String()` with the error ignored, as in
`scheduledWorker.poll`: the string value of the `queue` field, or the zero
value `""` when the field is missing or not a string. -/
def msgQueueString (m : Msg) : String :=
  match msgLookup m "queue" with
  | some (.jstr s) => s
  | _ => ""

/-- simplejson `Set(key, val)` on an object: replace the first binding of the
key, or append a new binding. -/
def msgSet : Msg → String → JVal → Msg
  | [], key, v => [(key, v)]
  | (k, w) :: rest, key, v =>
    if k = key then (k, v) :: rest else (k, w) :: msgSet rest key v

/-- `strings.TrimPrefix(s, pre)`: drop `pre` when it is a prefix of `s`,
otherwise return `s` unchanged. -/
def trimPre (s pre : String) : String :=
  if pre.isPrefixOf s then s.drop pre.length else s

/-- simplejson `GetIndex(i)`: the i-th element of an array, or the empty
`Json` (modelled as `none`) when out of range or when the value is not an
array. -/
def getIndex (args : JVal) (i : Nat) : Option JVal :=
  match args with
  | .jarr xs => xs.get? i
  | _ => none

/-- simplejson v0.5.0 `String()`: succeeds exactly on a string value. -/
def sjString : Option JVal → Except String String
  | some (.jstr s) => .ok s
  | _ => .error "type assertion to string failed"

/-- simplejson v0.5.0 `Int64()`: with `UseNumber` decoding the stored value
is a `json.Number`, and `Int64()` parses its literal with
`strconv.ParseInt(s, 10, 64)`, which fails on non-integral literals such as
3.14 and on literals outside the int64 range; a rational with denominator 1
and an in-range numerator corresponds to a parsable integer literal.  The
error string stands in for the `strconv.NumError` rendering, whose literal
text the rational model does not carry.  Any non-number fails with the
fall-through error. -/
def sjInt64 : Option JVal → Except String Int
  | some (.jnum q) =>
    if q.den = 1 ∧ -9223372036854775808 ≤ q.num ∧ q.num ≤ 9223372036854775807 then
      .ok q.num
    else
      .error "strconv.ParseInt: invalid syntax or value out of range"
  | _ => .error "invalid value type"

/-- simplejson v0.5.0 `Float64()`: succeeds exactly on a number. -/
def sjFloat64 : Option JVal → Except String Rat
  | some (.jnum q) => .ok q
  | _ => .error "invalid value type"

/-- simplejson v0.5.0 `Bool()`: succeeds exactly on a boolean. -/
def sjBool : Option JVal → Except String Bool
  | some (.jbool b) => .ok b
  | _ => .error "type assertion to bool failed"

/-- The reflected kind of a target struct field. The Go switch in the direct
decoder handles string, the signed integer kinds, the float kinds and bool;
composite kinds are outside this model. -/
inductive FKind where
  | kstr : FKind
  | kint : FKind
  | kfloat : FKind
  | kbool : FKind

/-- The value held by a scalar struct field. -/
inductive FVal where
  | fstr : String → FVal
  | fint : Int → FVal
  | ffloat : Rat → FVal
  | fbool : Bool → FVal

/-- One field of a target Go struct: its name, whether it is exported, and
its reflected kind. -/
structure GoField where
  name : String
  exported : Bool
  kind : FKind

/-- The zero value of a field kind, as produced by `reflect.New`. -/
def zeroVal : FKind → FVal
  | .kstr => .fstr ""
  | .kint => .fint 0
  | .kfloat => .ffloat 0
  | .kbool => .fbool false

/-- A struct instance: each field descriptor paired with its current value. -/
abbrev GoStruct := List (GoField × FVal)

/-- The per-field switch of the direct `DecodeSidekiqArgs` (the part_002
implementation): dispatch on the reflected kind and use the corresponding
simplejson typed accessor, wrapping failures with the field name. -/
def decodeFieldDirect (f : GoField) (jv : Option JVal) : Except String FVal :=
  match f.kind with
  | .kstr =>
    match sjString jv with
    | .ok s => .ok (.fstr s)
    | .error e => .error ("failed to decode string for field " ++ f.name ++ ": " ++ e)
  | .kint =>
    match sjInt64 jv with
    | .ok n => .ok (.fint n)
    | .error e => .error ("failed to decode int for field " ++ f.name ++ ": " ++ e)
  | .kfloat =>
    match sjFloat64 jv with
    | .ok q => .ok (.ffloat q)
    | .error e => .error ("failed to decode float for field " ++ f.name ++ ": " ++ e)
  | .kbool =>
    match sjBool jv with
    | .ok b => .ok (.fbool b)
    | .error e => .error ("failed to decode bool for field " ++ f.name ++ ": " ++ e)

/-- The field loop of the direct `DecodeSidekiqArgs`: walk the fields in
declaration order, skipping unexported fields without advancing the array
index, and set each exported field from `args.GetIndex(currentIdx)`. -/
def decodeDirectGo (args : JVal) : GoStruct → Nat → Except String GoStruct
  | [], _ => .ok []
  | (f, v) :: rest, idx =>
    if f.exported then
      match decodeFieldDirect f (getIndex args idx) with
      | .error e => .error e
      | .ok w =>
        match decodeDirectGo args rest (idx + 1) with
        | .error e => .error e
        | .ok out => .ok ((f, w) :: out)
    else
      match decodeDirectGo args rest idx with
      | .error e => .error e
      | .ok out => .ok ((f, v) :: out)

/-- `DecodeSidekiqArgs`, direct implementation (part_002): set the scalar
fields of the target struct in declaration order from the argument array.
The target is assumed to be a non-nil pointer to a struct (the guard clauses
of the source reject anything else before this code runs). -/
def DecodeSidekiqArgsDirect (args : JVal) (target : GoStruct) : Except String GoStruct :=
  decodeDirectGo args target 0

/-- The map-building loop of the JSON-roundtrip `DecodeSidekiqArgs`
(part_001): pair the name of each exported field, in declaration order, with
the next unconsumed array element; stop as soon as the array is exhausted. -/
def buildValues : List GoField → List JVal → List (String × JVal)
  | [], _ => []
  | f :: fs, xs =>
    if f.exported then
      match xs with
      | [] => []
      | x :: rest => (f.name, x) :: buildValues fs rest
    else
      buildValues fs xs

/-- Lookup in the intermediate values map (a Go `map[string]interface\x7b\x7d`;
keys produced by `buildValues` are distinct Go field names). -/
def lookupStr : List (String × JVal) → String → Option JVal
  | [], _ => none
  | (k, v) :: rest, key => if k = key then some v else lookupStr rest key

/-- `encoding/json.Unmarshal` of one JSON value into a scalar struct field:
JSON null leaves the field unchanged without error; otherwise the value must
match the field kind.  A number goes into an integer field through
`strconv.ParseInt` on its literal, so it must be integral and within the
int64 range (fractional spellings of integers such as 3.0, which ParseInt
also rejects, are outside the rational model). -/
def unmarshalField (k : FKind) (jv : JVal) (old : FVal) : Except String FVal :=
  match jv with
  | .jnull => .ok old
  | .jstr s =>
    match k with
    | .kstr => .ok (.fstr s)
    | _ => .error "json: cannot unmarshal string into Go value"
  | .jnum q =>
    match k with
    | .kint =>
      if q.den = 1 ∧ -9223372036854775808 ≤ q.num ∧ q.num ≤ 9223372036854775807 then
        .ok (.fint q.num)
      else
        .error "json: cannot unmarshal number into Go value of integer kind"
    | .kfloat => .ok (.ffloat q)
    | _ => .error "json: cannot unmarshal number into Go value"
  | .jbool b =>
    match k with
    | .kbool => .ok (.fbool b)
    | _ => .error "json: cannot unmarshal bool into Go value"
  | .jarr _ => .error "json: cannot unmarshal array into Go scalar value"
  | .jobj _ => .error "json: cannot unmarshal object into Go scalar value"

/-- `encoding/json.Unmarshal` of the intermediate object into the target
struct: each exported field whose name occurs in the object is decoded from
the associated value; absent names and unexported fields are left unchanged. -/
def unmarshalStruct (values : List (String × JVal)) : GoStruct → Except String GoStruct
  | [] => .ok []
  | (f, v) :: rest =>
    if f.exported then
      match (match lookupStr values f.name with
             | none => Except.ok v
             | some jv => unmarshalField f.kind jv v) with
      | .error e => .error e
      | .ok w =>
        match unmarshalStruct values rest with
        | .error e => .error e
        | .ok out => .ok ((f, w) :: out)
    else
      match unmarshalStruct values rest with
      | .error e => .error e
      | .ok out => .ok ((f, v) :: out)

/-- `DecodeSidekiqArgs`, JSON-roundtrip implementation (part_001): require an
array, pair exported field names with array elements in order, marshal the
map back to JSON and unmarshal it into the target struct. -/
def DecodeSidekiqArgsJson (args : JVal) (target : GoStruct) : Except String GoStruct :=
  match args with
  | .jarr xs => unmarshalStruct (buildValues (target.map Prod.fst) xs) target
  | _ => .error "failed to decode JSON array: not an array"

/-- A one-field target struct with an exported string field, in its zero
state. -/
def sampleStrTarget : GoStruct :=
  [(⟨"A", true, .kstr⟩, .fstr "")]

/-- C2: the two duplicated implementations of DecodeSidekiqArgs are not
semantically equivalent.  On `[null]` against a string field the
JSON-roundtrip implementation succeeds (null leaves the field unchanged)
while the direct implementation fails, and on the empty array against a
non-empty struct the JSON-roundtrip implementation succeeds (it stops
consuming positions once the array is exhausted) while the direct
implementation fails (`GetIndex` past the end yields the empty `Json`,
whose typed accessors all error). -/
theorem decodeSidekiqArgs_implementations_differ :
    (DecodeSidekiqArgsJson (.jarr [.jnull]) sampleStrTarget = .ok sampleStrTarget
      ∧ DecodeSidekiqArgsDirect (.jarr [.jnull]) sampleStrTarget =
          .error "failed to decode string for field A: type assertion to string failed")
    ∧ (DecodeSidekiqArgsJson (.jarr []) sampleStrTarget = .ok sampleStrTarget
      ∧ DecodeSidekiqArgsDirect (.jarr []) sampleStrTarget =
          .error "failed to decode string for field A: type assertion to string failed") :=
  ⟨⟨rfl, rfl⟩, ⟨rfl, rfl⟩⟩

/-- Worker options; the poller only reads the key `Namespace` (and the
`PollInterval`, which sets the ticker cadence and is abstracted by the run
schedule below). -/
structure Options where
  Namespace : String

/-- The cancellation token handed to `run` and `poll`.  `cancelCycle = some
(c, k)` means the token trips during run-loop iteration `c`, right before
the `k`-th store call of that poll cycle (`k = 0`: before the cycle does any
store work); `none` means the token never trips in the window modelled. -/
structure Ctx where
  cancelCycle : Option (Nat × Nat)

/-- Cancellation point of the token inside poll cycle `i`: none before the
tripping cycle, the trip index inside it, and 0 in every later cycle. -/
def cancelAtCycle (ctx : Ctx) (i : Nat) : Option Nat :=
  match ctx.cancelCycle with
  | none => none
  | some (c, k) => if i < c then none else if i = c then some k else some 0

/-- Whether the token is observed as tripped at store call `i` of a cycle
whose cancellation point is `ca`: a store call issued with a cancelled
context fails. -/
def canceledAt (ca : Option Nat) (i : Nat) : Bool :=
  match ca with
  | none => false
  | some k => k ≤ i

/-- Whether the `ctx.Done()` branch of the run-loop select is ready at the
select of iteration `i`: the token tripped in an earlier cycle, or before
the current iteration started any work. -/
def trippedAtSelect (ctx : Ctx) (i : Nat) : Bool :=
  match ctx.cancelCycle with
  | none => false
  | some (c, k) => c < i || (c == i && k == 0)

/-- The inputs a single poll cycle draws from its environment: the
wall-clock readings (`clock 0` is the reading taken at the top of `poll`,
`clock (j+1)` the reading taken while processing the j-th promoted message)
and the due entries the store will hand out from the schedule set and the
retry set, in dequeue order, before reporting that none are due. -/
structure PollInput where
  clock : Nat → Rat
  sched : List Msg
  retr : List Msg

/-- One store operation issued by a poll cycle, with its observed outcome:
a `DequeueScheduledMessage(now)` or `DequeueRetriedMessage(now)` call with
its result, or an `EnqueueMessageNow(queue, payload)` call (whose error the
source ignores; `ok = false` records a call that failed because the context
was cancelled). -/
inductive Ev where
  | deqSched : Rat → Option Msg → Ev
  | deqRetr : Rat → Option Msg → Ev
  | enq : Bool → String → Msg → Ev

/-- The destination queue name handed to `EnqueueMessageNow`: the string
value of the message queue field with the namespace prefix trimmed. -/
def promoteDest (ns : String) (m : Msg) : String :=
  trimPre (msgQueueString m) ns

/-- `message.Set("enqueued_at", t)` on a dequeued payload. -/
def stampMsg (m : Msg) (t : Rat) : Msg :=
  msgSet m "enqueued_at" (.jnum t)

/-- First drain loop of `scheduledWorker.poll` (scheduled.go): repeatedly
`DequeueScheduledMessage(ctx, now)`, breaking on the first failing call
(store empty, or context cancelled); each dequeued payload is parsed, its
destination queue computed with the namespace trimmed, stamped with a fresh
`enqueued_at` reading, and handed to `EnqueueMessageNow`.  `calls` counts
the store calls already issued in this cycle and `msgs` the messages already
promoted; the function returns the events of this loop together with the
updated counters. -/
def drainScheduled (ns : String) (clock : Nat → Rat) (ca : Option Nat) (now : Rat) :
    List Msg → Nat → Nat → List Ev × Nat × Nat
  | [], calls, msgs => ([.deqSched now none], calls + 1, msgs)
  | m :: rest, calls, msgs =>
    if canceledAt ca calls then ([.deqSched now none], calls + 1, msgs)
    else
      let stamped := stampMsg m (clock (msgs + 1))
      let enqOk := !canceledAt ca (calls + 1)
      let next := drainScheduled ns clock ca now rest (calls + 2) (msgs + 1)
      (.deqSched now (some m) :: .enq enqOk (promoteDest ns m) stamped :: next.1,
       next.2.1, next.2.2)

/-- Second drain loop of `scheduledWorker.poll` (scheduled.go): identical to
the first but against `DequeueRetriedMessage(ctx, now)`. -/
def drainRetried (ns : String) (clock : Nat → Rat) (ca : Option Nat) (now : Rat) :
    List Msg → Nat → Nat → List Ev × Nat × Nat
  | [], calls, msgs => ([.deqRetr now none], calls + 1, msgs)
  | m :: rest, calls, msgs =>
    if canceledAt ca calls then ([.deqRetr now none], calls + 1, msgs)
    else
      let stamped := stampMsg m (clock (msgs + 1))
      let enqOk := !canceledAt ca (calls + 1)
      let next := drainRetried ns clock ca now rest (calls + 2) (msgs + 1)
      (.deqRetr now (some m) :: .enq enqOk (promoteDest ns m) stamped :: next.1,
       next.2.1, next.2.2)

/-- The `scheduledWorker` of scheduled.go: it stores only the options; the
context is passed to `run` and `poll` as a parameter. -/
structure scheduledWorker where
  opts : Options

/-- `scheduledWorker.poll` (scheduled.go): read `now`, drain the schedule
set, then drain the retry set, threading the store-call and message
counters; the trace lists the store operations of the cycle in order (the
position of an event is the index of its store call). -/
def scheduledWorker.poll (s : scheduledWorker) (ctx : Ctx) (cycle : Nat)
    (inp : PollInput) : List Ev :=
  let ca := cancelAtCycle ctx cycle
  let now := inp.clock 0
  let first := drainScheduled s.opts.Namespace inp.clock ca now inp.sched 0 0
  let second := drainRetried s.opts.Namespace inp.clock ca now inp.retr first.2.1 first.2.2
  first.1 ++ second.1

/-- Resolution of one iteration of the run-loop select: the `ctx.Done()`
branch was taken, or the ticker fired and a poll cycle runs on the given
inputs. -/
inductive RunStep where
  | done : RunStep
  | tick : PollInput → RunStep

/-- `scheduledWorker.run` (scheduled.go): loop on the select; taking the
done branch returns immediately, taking the ticker branch runs one poll
cycle and continues.  `i` numbers the iterations; the result is the list of
poll-cycle traces executed before the loop returned (or before the modelled
window ended). -/
def scheduledWorker.run (s : scheduledWorker) (ctx : Ctx) :
    Nat → List RunStep → List (List Ev)
  | _, [] => []
  | _, .done :: _ => []
  | i, .tick inp :: rest =>
    scheduledWorker.poll s ctx i inp :: scheduledWorker.run s ctx (i + 1) rest

/-- A schedule of select resolutions is valid for a token when the done
branch is only taken at iterations where the token is already tripped (the
ticker branch is always selectable: with both branches ready, the Go select
chooses uniformly at random). -/
def validSched (ctx : Ctx) : Nat → List RunStep → Bool
  | _, [] => true
  | i, .done :: rest => trippedAtSelect ctx i && validSched ctx (i + 1) rest
  | i, .tick _ :: rest => validSched ctx (i + 1) rest

/-- The procedure the specification describes for one poll cycle: drain the
schedule set by repeated `DequeueScheduledMessage(now)` until failure,
promoting each payload with namespace-stripped destination queue and a fresh
`enqueued_at` stamp, then do the same against `DequeueRetriedMessage(now)`;
the k-th promoted message overall receives the (k+1)-th clock reading. -/
def pollSpec (ns : String) (clock : Nat → Rat) (sched retr : List Msg) : List Ev :=
  let now := clock 0
  ((sched.enumFrom 0).map fun p =>
      [Ev.deqSched now (some p.2),
       Ev.enq true (promoteDest ns p.2) (stampMsg p.2 (clock (p.1 + 1)))]).flatten
    ++ [Ev.deqSched now none]
    ++ ((retr.enumFrom sched.length).map fun p =>
        [Ev.deqRetr now (some p.2),
         Ev.enq true (promoteDest ns p.2) (stampMsg p.2 (clock (p.1 + 1)))]).flatten
    ++ [Ev.deqRetr now none]

/-- The duplicated `scheduledWorker` (part_007): the context is stored in the
struct by `newScheduledWorker(opts, ctx)` instead of being passed to `run`
and `poll`. -/
structure scheduledWorkerCtx where
  opts : Options
  ctx : Ctx

/-- First drain loop of the part_007 `poll`: textually the same loop as in
scheduled.go, but reading the context out of the worker struct. -/
def drainScheduledCtx (s : scheduledWorkerCtx) (clock : Nat → Rat) (cycle : Nat)
    (now : Rat) : List Msg → Nat → Nat → List Ev × Nat × Nat
  | [], calls, msgs => ([.deqSched now none], calls + 1, msgs)
  | m :: rest, calls, msgs =>
    if canceledAt (cancelAtCycle s.ctx cycle) calls then
      ([.deqSched now none], calls + 1, msgs)
    else
      let stamped := stampMsg m (clock (msgs + 1))
      let enqOk := !canceledAt (cancelAtCycle s.ctx cycle) (calls + 1)
      let next := drainScheduledCtx s clock cycle now rest (calls + 2) (msgs + 1)
      (.deqSched now (some m) :: .enq enqOk (promoteDest s.opts.Namespace m) stamped :: next.1,
       next.2.1, next.2.2)

/-- Second drain loop of the part_007 `poll`, against the retry set. -/
def drainRetriedCtx (s : scheduledWorkerCtx) (clock : Nat → Rat) (cycle : Nat)
    (now : Rat) : List Msg → Nat → Nat → List Ev × Nat × Nat
  | [], calls, msgs => ([.deqRetr now none], calls + 1, msgs)
  | m :: rest, calls, msgs =>
    if canceledAt (cancelAtCycle s.ctx cycle) calls then
      ([.deqRetr now none], calls + 1, msgs)
    else
      let stamped := stampMsg m (clock (msgs + 1))
      let enqOk := !canceledAt (cancelAtCycle s.ctx cycle) (calls + 1)
      let next := drainRetriedCtx s clock cycle now rest (calls + 2) (msgs + 1)
      (.deqRetr now (some m) :: .enq enqOk (promoteDest s.opts.Namespace m) stamped :: next.1,
       next.2.1, next.2.2)

/-- `poll` of the part_007 worker: as in scheduled.go, with the context read
from the struct. -/
def scheduledWorkerCtx.poll (s : scheduledWorkerCtx) (cycle : Nat)
    (inp : PollInput) : List Ev :=
  let now := inp.clock 0
  let first := drainScheduledCtx s inp.clock cycle now inp.sched 0 0
  let second := drainRetriedCtx s inp.clock cycle now inp.retr first.2.1 first.2.2
  first.1 ++ second.1

/-- `run` of the part_007 worker: the same select loop, with the context
read from the struct. -/
def scheduledWorkerCtx.run (s : scheduledWorkerCtx) :
    Nat → List RunStep → List (List Ev)
  | _, [] => []
  | _, .done :: _ => []
  | i, .tick inp :: rest =>
    scheduledWorkerCtx.poll s i inp :: scheduledWorkerCtx.run s (i + 1) rest

/-- Modelled from the spec: the retry middleware (its source file is not in
the analysed tree; only the spec describes it) computes the backoff base for
a message whose prior retry count is n as n^4 + 15 seconds. -/
def secondsToDelay (n : Nat) : Nat :=
  n ^ 4 + 15

/-- Modelled from the spec: the retry delay is the backoff base plus an
integer jitter drawn uniformly from [0, 30) seconds. -/
def retryDelay (n jitter : Nat) : Nat :=
  secondsToDelay n + jitter

/-- A registered handler entry: the handler and the reflected args type
recorded for it (`reflect.TypeOf(argsType)`, a pointer-to-struct type). -/
inductive GoTy where
  | ptr : GoTy → GoTy
  | strct : List GoField → GoTy
  | base : GoTy

/-- The kind test performed by `RegisterHandler`: `t.Kind() == Ptr` and
`t.Elem().Kind() == Struct`. -/
def isPtrToStruct : GoTy → Bool
  | .ptr (.strct _) => true
  | _ => false

/-- `argsType.Elem()` viewed as a field list, for the pointer-to-struct
types stored by `RegisterHandler` (other types never reach `Dispatch`). -/
def tyElemFields : GoTy → List GoField
  | .ptr (.strct fs) => fs
  | _ => []

/-- A handler registration: the `JobHandler` (its `HandleJob` modelled as a
function from the filled args struct to a Go error, `none` being nil) and
the recorded args type. -/
structure HandlerEntry where
  handler : GoStruct → Option String
  argsType : GoTy

/-- The dispatcher state: the `handlers` Go map, modelled as an association
list with at most one binding used per key. -/
structure JobDispatcher where
  handlers : List (String × HandlerEntry)

/-- Go map read on the handlers map. -/
def lookupHandler : List (String × HandlerEntry) → String → Option HandlerEntry
  | [], _ => none
  | (k, e) :: rest, key => if k = key then some e else lookupHandler rest key

/-- Go map write on the handlers map: replace the binding of the key, or add
one. -/
def updateHandlers : List (String × HandlerEntry) → String → HandlerEntry →
    List (String × HandlerEntry)
  | [], key, e => [(key, e)]
  | (k, old) :: rest, key, e =>
    if k = key then (k, e) :: rest else (k, old) :: updateHandlers rest key e

/-- `JobDispatcher.RegisterHandler`: reject any args type that is not a
pointer to a struct; otherwise record the (handler, args type) pair under
the class.  The result is the returned error (if any) together with the
dispatcher state after the call. -/
def RegisterHandler (d : JobDispatcher) (cls : String)
    (h : GoStruct → Option String) (argsType : GoTy) :
    Option String × JobDispatcher :=
  match argsType with
  | .ptr (.strct _) =>
    (none, ⟨updateHandlers d.handlers cls ⟨h, argsType⟩⟩)
  | _ => (some "argsType must be a pointer to a struct", d)

/-- The message fields `Dispatch` reads: `msg.Class()` and `msg.Args()`
(`none` models a nil args object). -/
structure DispatchMsg where
  className : String
  args : Option JVal

/-- `JobDispatcher.Dispatch`: look up the class, require non-nil args,
decode them into a fresh zero instance of the registered args struct with
`DecodeSidekiqArgs` (the decoding function is a parameter, since the tree
carries two implementations of it), and on success return exactly what the
handler returns. -/
def Dispatch (dec : JVal → GoStruct → Except String GoStruct)
    (d : JobDispatcher) (m : DispatchMsg) : Option String :=
  match lookupHandler d.handlers m.className with
  | none => some ("no handler registered for job class: " ++ m.className)
  | some e =>
    match m.args with
    | none => some ("no arguments received for job class: " ++ m.className)
    | some a =>
      match dec a ((tyElemFields e.argsType).map fun f => (f, zeroVal f.kind)) with
      | .error er =>
        some ("failed to decode job args for class " ++ m.className ++ ": " ++ er)
      | .ok vals => e.handler vals

/-- Go map law: after a write, reading the written key yields the new
entry. -/
theorem lookupHandler_updateHandlers_self :
    ∀ (l : List (String × HandlerEntry)) (k : String) (e : HandlerEntry),
    lookupHandler (updateHandlers l k e) k = some e
  | [], k, e => by simp [updateHandlers, lookupHandler]
  | (k0, e0) :: rest, k, e => by
    by_cases h : k0 = k
    · simp [updateHandlers, lookupHandler, h]
    · simp [updateHandlers, lookupHandler, h,
            lookupHandler_updateHandlers_self rest k e]

/-- Go map law: a write leaves every other key unchanged. -/
theorem lookupHandler_updateHandlers_other :
    ∀ (l : List (String × HandlerEntry)) (k c : String) (e : HandlerEntry),
    c ≠ k →
    lookupHandler (updateHandlers l k e) c = lookupHandler l c
  | [], k, c, e, h => by simp [updateHandlers, lookupHandler, Ne.symm h]
  | (k0, e0) :: rest, k, c, e, h => by
    by_cases h0 : k0 = k
    · subst h0
      simp [updateHandlers, lookupHandler, Ne.symm h]
    · simp [updateHandlers, lookupHandler, h0,
            lookupHandler_updateHandlers_other rest k c e h]

/-- Inversion of the RegisterHandler kind test: a type passing it is a
pointer to some struct. -/
theorem isPtrToStruct_inv (t : GoTy) (h : isPtrToStruct t = true) :
    ∃ fs, t = .ptr (.strct fs) := by
  cases t with
  | ptr u =>
    cases u with
    | strct fs => exact ⟨fs, rfl⟩
    | ptr v => simp [isPtrToStruct] at h
    | base => simp [isPtrToStruct] at h
  | strct fs => simp [isPtrToStruct] at h
  | base => simp [isPtrToStruct] at h

/-- C3: for every prior retry count n and every jitter drawn from [0, 30)
seconds, the retry delay base(n) + jitter lies in [n^4 + 15, n^4 + 45). -/
theorem retryDelay_within_bounds (n jitter : Nat) (h : jitter < 30) :
    n ^ 4 + 15 ≤ retryDelay n jitter ∧ retryDelay n jitter < n ^ 4 + 45 := by
  unfold retryDelay secondsToDelay
  constructor
  · exact Nat.le_add_right _ _
  · omega

/-- Concrete instance of the retry-delay bounds at n = 2, jitter = 7. -/
theorem retryDelay_within_bounds_witness :
    7 < 30 ∧ (2 ^ 4 + 15 ≤ retryDelay 2 7 ∧ retryDelay 2 7 < 2 ^ 4 + 45) :=
  ⟨by decide, retryDelay_within_bounds 2 7 (by decide)⟩

/-- C9: RegisterHandler rejects any args type that is not a pointer to a
struct, returning a non-nil error and leaving the handler map unchanged;
on a pointer-to-struct type it returns nil, records the (handler, args type)
pair under the class without touching other classes, and a subsequent
Dispatch of a message with that class routes to the registered handler. -/
theorem registerHandler_spec (d : JobDispatcher) (cls : String)
    (h : GoStruct → Option String) (t : GoTy) :
    (isPtrToStruct t = false →
      RegisterHandler d cls h t = (some "argsType must be a pointer to a struct", d))
    ∧ (isPtrToStruct t = true →
        (RegisterHandler d cls h t).1 = none
        ∧ lookupHandler (RegisterHandler d cls h t).2.handlers cls = some ⟨h, t⟩
        ∧ ∀ c, c ≠ cls →
            lookupHandler (RegisterHandler d cls h t).2.handlers c =
              lookupHandler d.handlers c)
    ∧ (∀ dec a vals m, isPtrToStruct t = true →
        m.className = cls → m.args = some a →
        dec a ((tyElemFields t).map fun f => (f, zeroVal f.kind)) = .ok vals →
        Dispatch dec (RegisterHandler d cls h t).2 m = h vals) := by
  refine ⟨?_, ?_, ?_⟩
  · intro hbad
    cases t with
    | ptr u =>
      cases u with
      | strct fs => simp [isPtrToStruct] at hbad
      | ptr v => rfl
      | base => rfl
    | strct fs => rfl
    | base => rfl
  · intro hgood
    obtain ⟨fs, rfl⟩ := isPtrToStruct_inv t hgood
    refine ⟨rfl, ?_, ?_⟩
    · exact lookupHandler_updateHandlers_self d.handlers cls _
    · intro c hc
      exact lookupHandler_updateHandlers_other d.handlers cls c _ hc
  · intro dec a vals m hgood hcls hargs hdec
    obtain ⟨fs, rfl⟩ := isPtrToStruct_inv t hgood
    have hl : lookupHandler (updateHandlers d.handlers cls ⟨h, .ptr (.strct fs)⟩) cls
        = some ⟨h, .ptr (.strct fs)⟩ :=
      lookupHandler_updateHandlers_self d.handlers cls _
    simp only [tyElemFields] at hdec
    simp only [RegisterHandler, Dispatch, hcls, hl, hargs, tyElemFields, hdec]

/-- Concrete instances of the RegisterHandler contract: a plain (non-pointer)
type is rejected without touching an empty dispatcher; registering a
pointer-to-empty-struct type under class Echo succeeds, is readable back,
leaves another class unregistered, and a subsequent Dispatch of an Echo
message with an empty args array reaches the registered handler. -/
theorem registerHandler_spec_witness :
    (isPtrToStruct GoTy.base = false
      ∧ RegisterHandler ⟨[]⟩ "Echo" (fun _ => none) GoTy.base =
          (some "argsType must be a pointer to a struct", (⟨[]⟩ : JobDispatcher)))
    ∧ ((RegisterHandler ⟨[]⟩ "Echo" (fun _ => none) (GoTy.ptr (GoTy.strct []))).1 = none
      ∧ lookupHandler (RegisterHandler ⟨[]⟩ "Echo" (fun _ => none)
          (GoTy.ptr (GoTy.strct []))).2.handlers "Echo" =
            some ⟨fun _ => none, GoTy.ptr (GoTy.strct [])⟩)
    ∧ Dispatch DecodeSidekiqArgsJson
        (RegisterHandler ⟨[]⟩ "Echo" (fun _ => none) (GoTy.ptr (GoTy.strct []))).2
        ⟨"Echo", some (.jarr [])⟩ = none := by
  refine ⟨⟨rfl, ?_⟩, ⟨?_, ?_⟩, ?_⟩
  · exact (registerHandler_spec ⟨[]⟩ "Echo" (fun _ => none) GoTy.base).1 rfl
  · exact ((registerHandler_spec ⟨[]⟩ "Echo" (fun _ => none)
      (GoTy.ptr (GoTy.strct []))).2.1 rfl).1
  · exact ((registerHandler_spec ⟨[]⟩ "Echo" (fun _ => none)
      (GoTy.ptr (GoTy.strct []))).2.1 rfl).2.1
  · exact (registerHandler_spec ⟨[]⟩ "Echo" (fun _ => none)
      (GoTy.ptr (GoTy.strct []))).2.2 DecodeSidekiqArgsJson (.jarr []) []
      ⟨"Echo", some (.jarr [])⟩ rfl rfl rfl rfl

/-- C8: Dispatch invokes a handler only when the class is registered, the
args are non-nil and decoding succeeds; in each of the three failure cases
it returns a non-nil error built without consulting the handler, and on
success it returns exactly the handler result. -/
theorem dispatch_spec (dec : JVal → GoStruct → Except String GoStruct)
    (d : JobDispatcher) (m : DispatchMsg) :
    (lookupHandler d.handlers m.className = none →
      Dispatch dec d m = some ("no handler registered for job class: " ++ m.className))
    ∧ (∀ e, lookupHandler d.handlers m.className = some e → m.args = none →
        Dispatch dec d m = some ("no arguments received for job class: " ++ m.className))
    ∧ (∀ e a er, lookupHandler d.handlers m.className = some e → m.args = some a →
        dec a ((tyElemFields e.argsType).map fun f => (f, zeroVal f.kind)) = .error er →
        Dispatch dec d m =
          some ("failed to decode job args for class " ++ m.className ++ ": " ++ er))
    ∧ (∀ e a vals, lookupHandler d.handlers m.className = some e → m.args = some a →
        dec a ((tyElemFields e.argsType).map fun f => (f, zeroVal f.kind)) = .ok vals →
        Dispatch dec d m = e.handler vals) := by
  refine ⟨?_, ?_, ?_, ?_⟩
  · intro h1
    simp only [Dispatch, h1]
  · intro e h1 h2
    simp only [Dispatch, h1, h2]
  · intro e a er h1 h2 h3
    simp only [Dispatch, h1, h2, h3]
  · intro e a vals h1 h2 h3
    simp only [Dispatch, h1, h2, h3]

/-- A concrete registered entry used by the Dispatch witness: a handler
returning the fixed error value handled, registered for a one-string-field
args struct. -/
def echoEntry : HandlerEntry :=
  ⟨fun _ => some "handled", GoTy.ptr (GoTy.strct [⟨"A", true, .kstr⟩])⟩

/-- A concrete dispatcher with the single class Echo registered. -/
def echoDispatcher : JobDispatcher :=
  ⟨[("Echo", echoEntry)]⟩

/-- Concrete instances of the Dispatch contract: unregistered class, nil
args, failing decode, and a successful dispatch that returns the handler
result. -/
theorem dispatch_spec_witness :
    (Dispatch DecodeSidekiqArgsDirect echoDispatcher ⟨"Nope", none⟩ =
      some "no handler registered for job class: Nope")
    ∧ (Dispatch DecodeSidekiqArgsDirect echoDispatcher ⟨"Echo", none⟩ =
      some "no arguments received for job class: Echo")
    ∧ (Dispatch DecodeSidekiqArgsDirect echoDispatcher ⟨"Echo", some (.jarr [])⟩ =
      some "failed to decode job args for class Echo: failed to decode string for field A: type assertion to string failed")
    ∧ (Dispatch DecodeSidekiqArgsDirect echoDispatcher ⟨"Echo", some (.jarr [.jstr "hi"])⟩ =
      some "handled") := by
  refine ⟨?_, ?_, ?_, ?_⟩
  · exact (dispatch_spec DecodeSidekiqArgsDirect echoDispatcher ⟨"Nope", none⟩).1 rfl
  · exact (dispatch_spec DecodeSidekiqArgsDirect echoDispatcher ⟨"Echo", none⟩).2.1
      echoEntry rfl rfl
  · exact (dispatch_spec DecodeSidekiqArgsDirect echoDispatcher
      ⟨"Echo", some (.jarr [])⟩).2.2.1 echoEntry (.jarr [])
      "failed to decode string for field A: type assertion to string failed" rfl rfl rfl
  · exact (dispatch_spec DecodeSidekiqArgsDirect echoDispatcher
      ⟨"Echo", some (.jarr [.jstr "hi"])⟩).2.2.2 echoEntry (.jarr [.jstr "hi"])
      [(⟨"A", true, .kstr⟩, .fstr "hi")] rfl rfl rfl

/-- The drain loop over the schedule set is insensitive to where the context
lives: the part_007 loop reading the stored context equals the scheduled.go
loop on the same context. -/
theorem drainScheduledCtx_eq (opts : Options) (ctx : Ctx) (clock : Nat → Rat)
    (cycle : Nat) (now : Rat) :
    ∀ (l : List Msg) (calls msgs : Nat),
    drainScheduledCtx ⟨opts, ctx⟩ clock cycle now l calls msgs =
      drainScheduled opts.Namespace clock (cancelAtCycle ctx cycle) now l calls msgs
  | [], calls, msgs => rfl
  | m :: rest, calls, msgs => by
    simp only [drainScheduledCtx, drainScheduled,
      drainScheduledCtx_eq opts ctx clock cycle now rest (calls + 2) (msgs + 1)]

/-- The drain loop over the retry set is likewise insensitive to where the
context lives. -/
theorem drainRetriedCtx_eq (opts : Options) (ctx : Ctx) (clock : Nat → Rat)
    (cycle : Nat) (now : Rat) :
    ∀ (l : List Msg) (calls msgs : Nat),
    drainRetriedCtx ⟨opts, ctx⟩ clock cycle now l calls msgs =
      drainRetried opts.Namespace clock (cancelAtCycle ctx cycle) now l calls msgs
  | [], calls, msgs => rfl
  | m :: rest, calls, msgs => by
    simp only [drainRetriedCtx, drainRetried,
      drainRetriedCtx_eq opts ctx clock cycle now rest (calls + 2) (msgs + 1)]

/-- C10: the two scheduledWorker implementations (context passed to run and
poll, versus context stored in the struct at construction) are behaviorally
equivalent: on the same options, context and store behavior they issue the
same store-operation traces, and their run loops stop on exactly the same
schedules. -/
theorem scheduledWorker_ctx_variant_equivalent (opts : Options) (ctx : Ctx) :
    (∀ cycle inp, scheduledWorkerCtx.poll ⟨opts, ctx⟩ cycle inp =
        scheduledWorker.poll ⟨opts⟩ ctx cycle inp)
    ∧ ∀ i steps, scheduledWorkerCtx.run ⟨opts, ctx⟩ i steps =
        scheduledWorker.run ⟨opts⟩ ctx i steps := by
  have hpoll : ∀ cycle inp, scheduledWorkerCtx.poll ⟨opts, ctx⟩ cycle inp =
      scheduledWorker.poll ⟨opts⟩ ctx cycle inp := by
    intro cycle inp
    unfold scheduledWorkerCtx.poll scheduledWorker.poll
    simp only [drainScheduledCtx_eq, drainRetriedCtx_eq]
  refine ⟨hpoll, ?_⟩
  intro i steps
  induction steps generalizing i with
  | nil => rfl
  | cons s rest ih =>
    cases s with
    | done => rfl
    | tick inp =>
      simp only [scheduledWorkerCtx.run, scheduledWorker.run, hpoll, ih]

/-- With a context that never cancels, the schedule drain dequeues every due
entry in order, promoting the k-th one (counting from the messages already
promoted this cycle) with the (k+1)-th clock reading, and ends with the
failing dequeue; it issues one store call per event. -/
theorem drainScheduled_nocancel (ns : String) (clock : Nat → Rat) (now : Rat) :
    ∀ (l : List Msg) (calls msgs : Nat),
    drainScheduled ns clock none now l calls msgs =
      (((l.enumFrom msgs).map fun p =>
          [Ev.deqSched now (some p.2),
           Ev.enq true (promoteDest ns p.2) (stampMsg p.2 (clock (p.1 + 1)))]).flatten
         ++ [Ev.deqSched now none],
       calls + (2 * l.length + 1), msgs + l.length)
  | [], calls, msgs => by
    simp [drainScheduled, List.enumFrom]
  | m :: rest, calls, msgs => by
    simp [drainScheduled, canceledAt, List.enumFrom,
          drainScheduled_nocancel ns clock now rest (calls + 2) (msgs + 1)]
    omega

/-- With a context that never cancels, the retry drain behaves exactly like
the schedule drain, against the retry set. -/
theorem drainRetried_nocancel (ns : String) (clock : Nat → Rat) (now : Rat) :
    ∀ (l : List Msg) (calls msgs : Nat),
    drainRetried ns clock none now l calls msgs =
      (((l.enumFrom msgs).map fun p =>
          [Ev.deqRetr now (some p.2),
           Ev.enq true (promoteDest ns p.2) (stampMsg p.2 (clock (p.1 + 1)))]).flatten
         ++ [Ev.deqRetr now none],
       calls + (2 * l.length + 1), msgs + l.length)
  | [], calls, msgs => by
    simp [drainRetried, List.enumFrom]
  | m :: rest, calls, msgs => by
    simp [drainRetried, canceledAt, List.enumFrom,
          drainRetried_nocancel ns clock now rest (calls + 2) (msgs + 1)]
    omega

/-- C1: at every tick, with the token untripped, poll drains the schedule
set by repeated DequeueScheduledMessage(now) until failure, promoting each
payload (namespace-stripped destination queue, fresh enqueued_at stamp,
EnqueueMessageNow of the re-serialized message), then does the same against
DequeueRetriedMessage(now): the trace equals the procedure the spec
describes, schedule set strictly before retry set. -/
theorem poll_promotes_schedule_then_retry (opts : Options) (clock : Nat → Rat)
    (sched retr : List Msg) (cycle : Nat) :
    scheduledWorker.poll ⟨opts⟩ ⟨none⟩ cycle ⟨clock, sched, retr⟩ =
      pollSpec opts.Namespace clock sched retr := by
  unfold scheduledWorker.poll pollSpec
  simp only [cancelAtCycle, drainScheduled_nocancel, drainRetried_nocancel]
  simp

/-- Every enqueue event emitted by the schedule drain is immediately
preceded, at the previous store call, by the successful dequeue whose
payload it re-enqueues (stamped with a fresh clock reading and routed to its
namespace-stripped destination queue). -/
theorem drainScheduled_enq_prev (ns : String) (clock : Nat → Rat)
    (ca : Option Nat) (now : Rat) (l : List Msg) :
    ∀ (calls msgs i : Nat) (ok : Bool) (q : String) (p : Msg),
    ((drainScheduled ns clock ca now l calls msgs).1)[i]? = some (.enq ok q p) →
    ∃ m t, 1 ≤ i ∧
      ((drainScheduled ns clock ca now l calls msgs).1)[i - 1]? =
        some (.deqSched now (some m)) ∧
      p = stampMsg m t ∧ q = promoteDest ns m := by
  induction l with
  | nil =>
    intro calls msgs i ok q p h
    rcases i with _ | n <;> simp [drainScheduled] at h
  | cons m rest ih =>
    intro calls msgs i ok q p h
    cases hc : canceledAt ca calls with
    | true =>
      simp only [drainScheduled, hc, if_true] at h
      rcases i with _ | n <;> simp at h
    | false =>
      simp only [drainScheduled, hc, Bool.false_eq_true, if_false] at h ⊢
      rcases i with _ | _ | n
      · simp at h
      · simp at h
        exact ⟨m, clock (msgs + 1), by omega, by simp, h.2.2.symm, h.2.1.symm⟩
      · simp only [List.getElem?_cons_succ] at h
        obtain ⟨m', t', h1, hprev, hp, hq⟩ := ih (calls + 2) (msgs + 1) n ok q p h
        obtain ⟨k, rfl⟩ : ∃ k, n = k + 1 := ⟨n - 1, by omega⟩
        refine ⟨m', t', by omega, ?_, hp, hq⟩
        simpa using hprev
  
/-- Every enqueue event emitted by the retry drain is likewise immediately
preceded by the successful retry-set dequeue of its source payload. -/
theorem drainRetried_enq_prev (ns : String) (clock : Nat → Rat)
    (ca : Option Nat) (now : Rat) (l : List Msg) :
    ∀ (calls msgs i : Nat) (ok : Bool) (q : String) (p : Msg),
    ((drainRetried ns clock ca now l calls msgs).1)[i]? = some (.enq ok q p) →
    ∃ m t, 1 ≤ i ∧
      ((drainRetried ns clock ca now l calls msgs).1)[i - 1]? =
        some (.deqRetr now (some m)) ∧
      p = stampMsg m t ∧ q = promoteDest ns m := by
  induction l with
  | nil =>
    intro calls msgs i ok q p h
    rcases i with _ | n <;> simp [drainRetried] at h
  | cons m rest ih =>
    intro calls msgs i ok q p h
    cases hc : canceledAt ca calls with
    | true =>
      simp only [drainRetried, hc, if_true] at h
      rcases i with _ | n <;> simp at h
    | false =>
      simp only [drainRetried, hc, Bool.false_eq_true, if_false] at h ⊢
      rcases i with _ | _ | n
      · simp at h
      · simp at h
        exact ⟨m, clock (msgs + 1), by omega, by simp, h.2.2.symm, h.2.1.symm⟩
      · simp only [List.getElem?_cons_succ] at h
        obtain ⟨m', t', h1, hprev, hp, hq⟩ := ih (calls + 2) (msgs + 1) n ok q p h
        obtain ⟨k, rfl⟩ : ∃ k, n = k + 1 := ⟨n - 1, by omega⟩
        refine ⟨m', t', by omega, ?_, hp, hq⟩
        simpa using hprev

/-- The first event of either drain loop is always a dequeue call. -/
theorem drainScheduled_head (ns : String) (clock : Nat → Rat) (ca : Option Nat)
    (now : Rat) (l : List Msg) (calls msgs : Nat) :
    ∃ r rest, (drainScheduled ns clock ca now l calls msgs).1 =
      Ev.deqSched now r :: rest := by
  cases l with
  | nil => exact ⟨none, [], rfl⟩
  | cons m rest =>
    cases hc : canceledAt ca calls with
    | true => exact ⟨none, [], by simp [drainScheduled, hc]⟩
    | false =>
      simp only [drainScheduled, hc, Bool.false_eq_true, if_false]
      exact ⟨some m, _, rfl⟩

/-- Every enqueue issued by a poll cycle re-enqueues, to its
namespace-stripped destination queue, exactly the payload returned by the
immediately preceding successful dequeue (schedule-set or retry-set),
stamped with a fresh clock reading. -/
theorem poll_enq_prev (opts : Options) (ctx : Ctx) (cycle : Nat)
    (inp : PollInput) :
    ∀ (i : Nat) (ok : Bool) (q : String) (p : Msg),
    (scheduledWorker.poll ⟨opts⟩ ctx cycle inp)[i]? = some (.enq ok q p) →
    ∃ m t, 1 ≤ i ∧
      ((scheduledWorker.poll ⟨opts⟩ ctx cycle inp)[i - 1]? =
          some (.deqSched (inp.clock 0) (some m)) ∨
        (scheduledWorker.poll ⟨opts⟩ ctx cycle inp)[i - 1]? =
          some (.deqRetr (inp.clock 0) (some m))) ∧
      p = stampMsg m t ∧ q = promoteDest opts.Namespace m := by
  intro i ok q p h
  unfold scheduledWorker.poll at h ⊢
  simp only at h ⊢
  set ca := cancelAtCycle ctx cycle with hca
  set evs1 := (drainScheduled opts.Namespace inp.clock ca (inp.clock 0) inp.sched 0 0).1 with hevs1
  set c1 := (drainScheduled opts.Namespace inp.clock ca (inp.clock 0) inp.sched 0 0).2.1 with hc1
  set g1 := (drainScheduled opts.Namespace inp.clock ca (inp.clock 0) inp.sched 0 0).2.2 with hg1
  set evs2 := (drainRetried opts.Namespace inp.clock ca (inp.clock 0) inp.retr c1 g1).1 with hevs2
  by_cases hi : i < evs1.length
  · rw [List.getElem?_append_left hi] at h
    obtain ⟨m, t, h1, hprev, hp, hq⟩ :=
      drainScheduled_enq_prev opts.Namespace inp.clock ca (inp.clock 0) inp.sched 0 0 i ok q p h
    refine ⟨m, t, h1, Or.inl ?_, hp, hq⟩
    rw [List.getElem?_append_left (by omega)]
    exact hprev
  · push_neg at hi
    rw [List.getElem?_append_right hi] at h
    obtain ⟨m, t, h1, hprev, hp, hq⟩ :=
      drainRetried_enq_prev opts.Namespace inp.clock ca (inp.clock 0) inp.retr c1 g1
        (i - evs1.length) ok q p h
    refine ⟨m, t, by omega, Or.inr ?_, hp, hq⟩
    rw [List.getElem?_append_right (by omega)]
    rw [show i - 1 - evs1.length = i - evs1.length - 1 by omega]
    exact hprev

/-- Frame law of simplejson Set: writing one key leaves every other key
unchanged. -/
theorem msgLookup_msgSet_ne : ∀ (m : Msg) (key k : String) (v : JVal),
    k ≠ key → msgLookup (msgSet m key v) k = msgLookup m k
  | [], key, k, v, h => by simp [msgSet, msgLookup, Ne.symm h]
  | (k0, w) :: rest, key, k, v, h => by
    by_cases h0 : k0 = key
    · subst h0
      simp [msgSet, msgLookup, Ne.symm h]
    · simp only [msgSet, h0, if_false]
      by_cases h1 : k0 = k
      · simp [msgLookup, h1]
      · simp [msgLookup, h1, msgLookup_msgSet_ne rest key k v h]

/-- C5: within one poll cycle, every EnqueueMessageNow call is strictly
preceded, at the immediately previous store call of the same cycle, by a
successful DequeueScheduledMessage or DequeueRetriedMessage whose returned
payload is the one being re-enqueued (after its enqueued_at restamp); the
poller never enqueues a payload it has not first dequeued. -/
theorem poll_enqueue_after_dequeue (opts : Options) (ctx : Ctx) (cycle : Nat)
    (inp : PollInput) (i : Nat) (ok : Bool) (q : String) (p : Msg)
    (h : (scheduledWorker.poll ⟨opts⟩ ctx cycle inp)[i]? = some (.enq ok q p)) :
    ∃ m t, 1 ≤ i ∧
      ((scheduledWorker.poll ⟨opts⟩ ctx cycle inp)[i - 1]? =
          some (.deqSched (inp.clock 0) (some m)) ∨
        (scheduledWorker.poll ⟨opts⟩ ctx cycle inp)[i - 1]? =
          some (.deqRetr (inp.clock 0) (some m))) ∧
      p = stampMsg m t ∧ q = promoteDest opts.Namespace m :=
  poll_enq_prev opts ctx cycle inp i ok q p h

/-- The concrete payload used by the poller witnesses: a message routed to
the namespaced queue sq:default. -/
def wMsg : Msg := [("queue", .jstr "sq:default"), ("jid", .jstr "abc")]

/-- The concrete poll input used by the poller witnesses: integer clock
readings, one due scheduled entry, no due retries. -/
def wInp : PollInput := ⟨fun k => (k : Rat), [wMsg], []⟩

/-- Concrete instance of the enqueue-after-dequeue property: in the cycle
promoting wMsg, the enqueue at store call 1 is preceded by its dequeue. -/
theorem poll_enqueue_after_dequeue_witness :
    (scheduledWorker.poll ⟨⟨"sq:"⟩⟩ ⟨none⟩ 0 wInp)[1]? =
      some (.enq true (trimPre (msgQueueString wMsg) "sq:")
        (stampMsg wMsg (wInp.clock 1)))
    ∧ ∃ m t, 1 ≤ 1 ∧
      ((scheduledWorker.poll ⟨⟨"sq:"⟩⟩ ⟨none⟩ 0 wInp)[1 - 1]? =
          some (.deqSched (wInp.clock 0) (some m)) ∨
        (scheduledWorker.poll ⟨⟨"sq:"⟩⟩ ⟨none⟩ 0 wInp)[1 - 1]? =
          some (.deqRetr (wInp.clock 0) (some m))) ∧
      stampMsg wMsg (wInp.clock 1) = stampMsg m t ∧
      trimPre (msgQueueString wMsg) "sq:" = promoteDest "sq:" m :=
  ⟨rfl, poll_enqueue_after_dequeue ⟨"sq:"⟩ ⟨none⟩ 0 wInp 1 true
    (trimPre (msgQueueString wMsg) "sq:") (stampMsg wMsg (wInp.clock 1)) rfl⟩

/-- C4: when the poller promotes a dequeued message, the re-enqueued payload
differs from the dequeued one only in its enqueued_at field (every other
field, in particular jid, class, args and queue, is unchanged); the message
keeps its original, possibly namespace-prefixed, queue field, and only the
destination queue name passed to EnqueueMessageNow is namespace-stripped. -/
theorem poll_promotion_frame (opts : Options) (ctx : Ctx) (cycle : Nat)
    (inp : PollInput) (i : Nat) (ok : Bool) (q : String) (p : Msg)
    (h : (scheduledWorker.poll ⟨opts⟩ ctx cycle inp)[i]? = some (.enq ok q p)) :
    ∃ m,
      ((scheduledWorker.poll ⟨opts⟩ ctx cycle inp)[i - 1]? =
          some (.deqSched (inp.clock 0) (some m)) ∨
        (scheduledWorker.poll ⟨opts⟩ ctx cycle inp)[i - 1]? =
          some (.deqRetr (inp.clock 0) (some m))) ∧
      (∀ k, k ≠ "enqueued_at" → msgLookup p k = msgLookup m k) ∧
      msgLookup p "queue" = msgLookup m "queue" ∧
      q = trimPre (msgQueueString m) opts.Namespace := by
  obtain ⟨m, t, h1, hprev, hp, hq⟩ := poll_enq_prev opts ctx cycle inp i ok q p h
  refine ⟨m, hprev, ?_, ?_, hq⟩
  · intro k hk
    rw [hp]
    exact msgLookup_msgSet_ne m "enqueued_at" k (.jnum t) hk
  · rw [hp]
    exact msgLookup_msgSet_ne m "enqueued_at" "queue" (.jnum t) (by decide)

/-- Concrete instance of the promotion frame property: promoting wMsg keeps
its jid and its namespaced queue field, while the destination queue is the
stripped name. -/
theorem poll_promotion_frame_witness :
    (scheduledWorker.poll ⟨⟨"sq:"⟩⟩ ⟨none⟩ 0 wInp)[1]? =
      some (.enq true (trimPre (msgQueueString wMsg) "sq:")
        (stampMsg wMsg (wInp.clock 1)))
    ∧ ∃ m,
      ((scheduledWorker.poll ⟨⟨"sq:"⟩⟩ ⟨none⟩ 0 wInp)[1 - 1]? =
          some (.deqSched (wInp.clock 0) (some m)) ∨
        (scheduledWorker.poll ⟨⟨"sq:"⟩⟩ ⟨none⟩ 0 wInp)[1 - 1]? =
          some (.deqRetr (wInp.clock 0) (some m))) ∧
      (∀ k, k ≠ "enqueued_at" →
        msgLookup (stampMsg wMsg (wInp.clock 1)) k = msgLookup m k) ∧
      msgLookup (stampMsg wMsg (wInp.clock 1)) "queue" = msgLookup m "queue" ∧
      trimPre (msgQueueString wMsg) "sq:" = trimPre (msgQueueString m) "sq:" :=
  ⟨rfl, poll_promotion_frame ⟨"sq:"⟩ ⟨none⟩ 0 wInp 1 true
    (trimPre (msgQueueString wMsg) "sq:") (stampMsg wMsg (wInp.clock 1)) rfl⟩

/-- Whether a store call succeeded: a dequeue that returned a payload, or an
enqueue the store accepted. -/
def evOk : Ev → Bool
  | .deqSched _ (some _) => true
  | .deqSched _ none => false
  | .deqRetr _ (some _) => true
  | .deqRetr _ none => false
  | .enq ok _ _ => ok

/-- A schedule drain whose first store call already sees a cancelled context
performs exactly that one failing dequeue and stops. -/
theorem drainScheduled_canceled (ns : String) (clock : Nat → Rat)
    (ca : Option Nat) (now : Rat) (l : List Msg) (calls msgs : Nat)
    (hc : canceledAt ca calls = true) :
    drainScheduled ns clock ca now l calls msgs = ([.deqSched now none], calls + 1, msgs) := by
  cases l with
  | nil => rfl
  | cons m rest => simp [drainScheduled, hc]

/-- A retry drain whose first store call already sees a cancelled context
performs exactly that one failing dequeue and stops. -/
theorem drainRetried_canceled (ns : String) (clock : Nat → Rat)
    (ca : Option Nat) (now : Rat) (l : List Msg) (calls msgs : Nat)
    (hc : canceledAt ca calls = true) :
    drainRetried ns clock ca now l calls msgs = ([.deqRetr now none], calls + 1, msgs) := by
  cases l with
  | nil => rfl
  | cons m rest => simp [drainRetried, hc]

/-- The schedule drain issues exactly one store call per event. -/
theorem drainScheduled_calls (ns : String) (clock : Nat → Rat)
    (ca : Option Nat) (now : Rat) :
    ∀ (l : List Msg) (calls msgs : Nat),
    (drainScheduled ns clock ca now l calls msgs).2.1 =
      calls + (drainScheduled ns clock ca now l calls msgs).1.length
  | [], calls, msgs => by simp [drainScheduled]
  | m :: rest, calls, msgs => by
    cases hc : canceledAt ca calls with
    | true => simp [drainScheduled, hc]
    | false =>
      simp [drainScheduled, hc,
            drainScheduled_calls ns clock ca now rest (calls + 2) (msgs + 1)]
      omega

/-- The retry drain issues exactly one store call per event. -/
theorem drainRetried_calls (ns : String) (clock : Nat → Rat)
    (ca : Option Nat) (now : Rat) :
    ∀ (l : List Msg) (calls msgs : Nat),
    (drainRetried ns clock ca now l calls msgs).2.1 =
      calls + (drainRetried ns clock ca now l calls msgs).1.length
  | [], calls, msgs => by simp [drainRetried]
  | m :: rest, calls, msgs => by
    cases hc : canceledAt ca calls with
    | true => simp [drainRetried, hc]
    | false =>
      simp [drainRetried, hc,
            drainRetried_calls ns clock ca now rest (calls + 2) (msgs + 1)]
      omega

/-- Once the token trips at store-call index k, the schedule drain performs
at most an ignored failing enqueue and a failing dequeue beyond it: its
whole loop makes at most (k - calls) + 2 store calls. -/
theorem drainScheduled_length_le (ns : String) (clock : Nat → Rat)
    (k : Nat) (now : Rat) :
    ∀ (l : List Msg) (calls msgs : Nat),
    (drainScheduled ns clock (some k) now l calls msgs).1.length ≤ (k - calls) + 2
  | [], calls, msgs => by simp [drainScheduled]
  | m :: rest, calls, msgs => by
    cases hc : canceledAt (some k) calls with
    | true => simp [drainScheduled, hc]
    | false =>
      have hck : calls < k := by
        simp [canceledAt] at hc
        omega
      by_cases hk2 : k ≤ calls + 2
      · have h1 : canceledAt (some k) (calls + 2) = true := by
          simp [canceledAt]
          omega
        simp [drainScheduled, hc,
              drainScheduled_canceled ns clock (some k) now rest (calls + 2) (msgs + 1) h1]
        omega
      · have := drainScheduled_length_le ns clock k now rest (calls + 2) (msgs + 1)
        simp [drainScheduled, hc]
        omega

/-- Once the token trips at store-call index k, the retry drain makes at
most (k - calls) + 2 store calls. -/
theorem drainRetried_length_le (ns : String) (clock : Nat → Rat)
    (k : Nat) (now : Rat) :
    ∀ (l : List Msg) (calls msgs : Nat),
    (drainRetried ns clock (some k) now l calls msgs).1.length ≤ (k - calls) + 2
  | [], calls, msgs => by simp [drainRetried]
  | m :: rest, calls, msgs => by
    cases hc : canceledAt (some k) calls with
    | true => simp [drainRetried, hc]
    | false =>
      have hck : calls < k := by
        simp [canceledAt] at hc
        omega
      by_cases hk2 : k ≤ calls + 2
      · have h1 : canceledAt (some k) (calls + 2) = true := by
          simp [canceledAt]
          omega
        simp [drainRetried, hc,
              drainRetried_canceled ns clock (some k) now rest (calls + 2) (msgs + 1) h1]
        omega
      · have := drainRetried_length_le ns clock k now rest (calls + 2) (msgs + 1)
        simp [drainRetried, hc]
        omega

/-- Every store call the schedule drain issues at or after the trip index
fails: the cancelled context is observed at each of them. -/
theorem drainScheduled_postfail (ns : String) (clock : Nat → Rat)
    (k : Nat) (now : Rat) :
    ∀ (l : List Msg) (calls msgs j : Nat) (ev : Ev),
    ((drainScheduled ns clock (some k) now l calls msgs).1)[j]? = some ev →
    k ≤ calls + j → evOk ev = false
  | [], calls, msgs, j, ev, h, hk => by
    rcases j with _ | n
    · simp [drainScheduled] at h
      simp [← h, evOk]
    · simp [drainScheduled] at h
  | m :: rest, calls, msgs, j, ev, h, hk => by
    cases hc : canceledAt (some k) calls with
    | true =>
      rw [drainScheduled_canceled ns clock (some k) now _ calls msgs hc] at h
      rcases j with _ | n
      · simp at h
        simp [← h, evOk]
      · simp at h
    | false =>
      have hck : calls < k := by
        simp [canceledAt] at hc
        omega
      simp only [drainScheduled, hc, Bool.false_eq_true, if_false] at h
      rcases j with _ | _ | n
      · omega
      · simp at h
        have henq : canceledAt (some k) (calls + 1) = true := by
          simp [canceledAt]
          omega
        rw [← h, henq]
        rfl
      · simp only [List.getElem?_cons_succ] at h
        exact drainScheduled_postfail ns clock k now rest (calls + 2) (msgs + 1) n ev h
          (by omega)

/-- Every store call the retry drain issues at or after the trip index
fails. -/
theorem drainRetried_postfail (ns : String) (clock : Nat → Rat)
    (k : Nat) (now : Rat) :
    ∀ (l : List Msg) (calls msgs j : Nat) (ev : Ev),
    ((drainRetried ns clock (some k) now l calls msgs).1)[j]? = some ev →
    k ≤ calls + j → evOk ev = false
  | [], calls, msgs, j, ev, h, hk => by
    rcases j with _ | n
    · simp [drainRetried] at h
      simp [← h, evOk]
    · simp [drainRetried] at h
  | m :: rest, calls, msgs, j, ev, h, hk => by
    cases hc : canceledAt (some k) calls with
    | true =>
      rw [drainRetried_canceled ns clock (some k) now _ calls msgs hc] at h
      rcases j with _ | n
      · simp at h
        simp [← h, evOk]
      · simp at h
    | false =>
      have hck : calls < k := by
        simp [canceledAt] at hc
        omega
      simp only [drainRetried, hc, Bool.false_eq_true, if_false] at h
      rcases j with _ | _ | n
      · omega
      · simp at h
        have henq : canceledAt (some k) (calls + 1) = true := by
          simp [canceledAt]
          omega
        rw [← h, henq]
        rfl
      · simp only [List.getElem?_cons_succ] at h
        exact drainRetried_postfail ns clock k now rest (calls + 2) (msgs + 1) n ev h
          (by omega)

/-- C7 (amended): taking the done branch of the select returns immediately
with no further poll cycle; a cycle that starts with the token already
tripped performs exactly the two failing dequeues; once the token trips at
store-call index k of a cycle, the cycle makes at most k + 3 store calls in
total, and every store call at or after the trip observes the cancellation
and fails, so the inner drain loops terminate. -/
theorem run_cancellation_amended (opts : Options) (ctx : Ctx) :
    (∀ (i : Nat) (rest : List RunStep),
      scheduledWorker.run ⟨opts⟩ ctx i (.done :: rest) = [])
    ∧ (∀ (cycle : Nat) (inp : PollInput), cancelAtCycle ctx cycle = some 0 →
        scheduledWorker.poll ⟨opts⟩ ctx cycle inp =
          [.deqSched (inp.clock 0) none, .deqRetr (inp.clock 0) none])
    ∧ (∀ (cycle : Nat) (inp : PollInput) (k : Nat),
        cancelAtCycle ctx cycle = some k →
        (scheduledWorker.poll ⟨opts⟩ ctx cycle inp).length ≤ k + 3)
    ∧ (∀ (cycle : Nat) (inp : PollInput) (k j : Nat) (ev : Ev),
        cancelAtCycle ctx cycle = some k → k ≤ j →
        (scheduledWorker.poll ⟨opts⟩ ctx cycle inp)[j]? = some ev →
        evOk ev = false) := by
  refine ⟨fun i rest => rfl, ?_, ?_, ?_⟩
  · intro cycle inp h
    unfold scheduledWorker.poll
    simp only [h]
    rw [drainScheduled_canceled opts.Namespace inp.clock (some 0) (inp.clock 0)
          inp.sched 0 0 rfl]
    rw [drainRetried_canceled opts.Namespace inp.clock (some 0) (inp.clock 0)
          inp.retr 1 0 rfl]
    rfl
  · intro cycle inp k h
    unfold scheduledWorker.poll
    simp only [h, List.length_append]
    have hlen1 := drainScheduled_length_le opts.Namespace inp.clock k (inp.clock 0)
      inp.sched 0 0
    have hc1 := drainScheduled_calls opts.Namespace inp.clock (some k) (inp.clock 0)
      inp.sched 0 0
    by_cases hk : k ≤ (drainScheduled opts.Namespace inp.clock (some k) (inp.clock 0)
        inp.sched 0 0).1.length
    · have hcan : canceledAt (some k)
          (drainScheduled opts.Namespace inp.clock (some k) (inp.clock 0)
            inp.sched 0 0).2.1 = true := by
        simp [canceledAt]
        omega
      rw [drainRetried_canceled opts.Namespace inp.clock (some k) (inp.clock 0)
            inp.retr _ _ hcan]
      simp
      omega
    · have hlen2 := drainRetried_length_le opts.Namespace inp.clock k (inp.clock 0)
        inp.retr
        (drainScheduled opts.Namespace inp.clock (some k) (inp.clock 0) inp.sched 0 0).2.1
        (drainScheduled opts.Namespace inp.clock (some k) (inp.clock 0) inp.sched 0 0).2.2
      omega
  · intro cycle inp k j ev h hkj hev
    unfold scheduledWorker.poll at hev
    simp only [h] at hev
    have hc1 := drainScheduled_calls opts.Namespace inp.clock (some k) (inp.clock 0)
      inp.sched 0 0
    by_cases hj : j < (drainScheduled opts.Namespace inp.clock (some k) (inp.clock 0)
        inp.sched 0 0).1.length
    · rw [List.getElem?_append_left hj] at hev
      exact drainScheduled_postfail opts.Namespace inp.clock k (inp.clock 0)
        inp.sched 0 0 j ev hev (by omega)
    · push_neg at hj
      rw [List.getElem?_append_right hj] at hev
      exact drainRetried_postfail opts.Namespace inp.clock k (inp.clock 0)
        inp.retr _ _ _ ev hev (by omega)

/-- Concrete instance of the amended cancellation behavior, for a token that
trips before the first cycle starts: the run loop returns at once when the
done branch is selected, and a cycle racing the trip performs exactly the
two failing store calls. -/
theorem run_cancellation_amended_witness :
    (scheduledWorker.run ⟨⟨"sq:"⟩⟩ ⟨some (0, 0)⟩ 0 [RunStep.done] = [])
    ∧ (cancelAtCycle ⟨some (0, 0)⟩ 0 = some 0
      ∧ scheduledWorker.poll ⟨⟨"sq:"⟩⟩ ⟨some (0, 0)⟩ 0 wInp =
          [.deqSched (wInp.clock 0) none, .deqRetr (wInp.clock 0) none])
    ∧ (scheduledWorker.poll ⟨⟨"sq:"⟩⟩ ⟨some (0, 0)⟩ 0 wInp).length ≤ 0 + 3
    ∧ (0 ≤ 0
      ∧ (scheduledWorker.poll ⟨⟨"sq:"⟩⟩ ⟨some (0, 0)⟩ 0 wInp)[0]? =
          some (.deqSched (wInp.clock 0) none)
      ∧ evOk (.deqSched (wInp.clock 0) none) = false) :=
  ⟨(run_cancellation_amended ⟨"sq:"⟩ ⟨some (0, 0)⟩).1 0 [],
   ⟨rfl, (run_cancellation_amended ⟨"sq:"⟩ ⟨some (0, 0)⟩).2.1 0 wInp rfl⟩,
   (run_cancellation_amended ⟨"sq:"⟩ ⟨some (0, 0)⟩).2.2.1 0 wInp 0 rfl,
   ⟨Nat.le_refl 0, rfl,
    (run_cancellation_amended ⟨"sq:"⟩ ⟨some (0, 0)⟩).2.2.2 0 wInp 0 0
      (.deqSched (wInp.clock 0) none) rfl (Nat.le_refl 0) rfl⟩⟩

/-- A poll input whose store has no due entries, used by the cancellation
race counterexample. -/
def idleInput : PollInput := ⟨fun _ => 0, [], []⟩

/-- C7 (counterexample to the claim as stated): the claim says that once the
token is tripped no new poll cycle is started.  With the token tripped
before the select of iteration 0, the schedule that resolves the select to
the ticker branch (legal in Go: with both channels ready the select chooses
uniformly at random) is valid, and the run loop then starts one more poll
cycle after the trip. -/
theorem run_tick_after_trip_counterexample :
    validSched ⟨some (0, 0)⟩ 0 [RunStep.tick idleInput, RunStep.done] = true
    ∧ trippedAtSelect ⟨some (0, 0)⟩ 0 = true
    ∧ (scheduledWorker.run ⟨⟨""⟩⟩ ⟨some (0, 0)⟩ 0
        [RunStep.tick idleInput, RunStep.done]).length = 1 :=
  ⟨rfl, rfl, rfl⟩

/-- Number of exported fields in a field list: the number of argument-array
positions those fields consume. -/
def exCount (fs : List GoField) : Nat :=
  fs.countP (fun f => f.exported)

/-- Number of exported fields in a struct prefix. -/
def exCountS (l : GoStruct) : Nat :=
  l.countP (fun p => p.1.exported)

/-- Counting exported fields commutes with projecting the descriptors. -/
theorem exCount_map_fst (l : GoStruct) : exCount (l.map Prod.fst) = exCountS l := by
  simp only [exCount, exCountS, List.countP_map]
  rfl

/-- The direct decoder loop assigns array elements to exported fields in
declaration order: when it succeeds, the field at declaration position j
keeps its descriptor; if exported it holds the value decoded from the array
element at its exported rank (offset by the starting index), and if
unexported it keeps its previous value, consuming no array position. -/
theorem decodeDirectGo_get (args : JVal) :
    ∀ (target out : GoStruct) (idx : Nat),
    decodeDirectGo args target idx = .ok out →
    ∀ (j : Nat) (f : GoField) (v : FVal), target[j]? = some (f, v) →
    ∃ w, out[j]? = some (f, w)
      ∧ (f.exported = true →
          decodeFieldDirect f (getIndex args (idx + exCountS (target.take j))) = .ok w)
      ∧ (f.exported = false → w = v)
  | [], out, idx, h, j, f, v, hj => by simp at hj
  | (f0, v0) :: rest, out, idx, h, j, f, v, hj => by
    cases hex : f0.exported with
    | true =>
      simp only [decodeDirectGo, hex, if_true] at h
      cases hd : decodeFieldDirect f0 (getIndex args idx) with
      | error e => rw [hd] at h; cases h
      | ok w0 =>
        rw [hd] at h
        cases hr : decodeDirectGo args rest (idx + 1) with
        | error e => rw [hr] at h; cases h
        | ok out' =>
          rw [hr] at h
          cases h
          rcases j with _ | n
          · simp only [List.getElem?_cons_zero, Option.some.injEq] at hj
            obtain ⟨rfl, rfl⟩ : f0 = f ∧ v0 = v := by
              constructor <;> [exact congrArg Prod.fst hj; exact congrArg Prod.snd hj]
            refine ⟨w0, by simp, ?_, ?_⟩
            · intro _
              simpa [exCountS] using hd
            · intro hfalse
              rw [hex] at hfalse
              cases hfalse
          · simp only [List.getElem?_cons_succ] at hj ⊢
            obtain ⟨w, hw, hexp, hun⟩ :=
              decodeDirectGo_get args rest out' (idx + 1) hr n f v hj
            refine ⟨w, hw, ?_, hun⟩
            intro hft
            have harith : idx + exCountS (((f0, v0) :: rest).take (n + 1)) =
                (idx + 1) + exCountS (rest.take n) := by
              simp [exCountS, List.countP_cons, hex]
              omega
            rw [harith]
            exact hexp hft
    | false =>
      simp only [decodeDirectGo, hex, Bool.false_eq_true, if_false] at h
      cases hr : decodeDirectGo args rest idx with
      | error e => rw [hr] at h; cases h
      | ok out' =>
        rw [hr] at h
        cases h
        rcases j with _ | n
        · simp only [List.getElem?_cons_zero, Option.some.injEq] at hj
          obtain ⟨rfl, rfl⟩ : f0 = f ∧ v0 = v := by
            constructor <;> [exact congrArg Prod.fst hj; exact congrArg Prod.snd hj]
          refine ⟨v0, by simp, ?_, fun _ => rfl⟩
          intro htrue
          rw [hex] at htrue
          cases htrue
        · simp only [List.getElem?_cons_succ] at hj ⊢
          obtain ⟨w, hw, hexp, hun⟩ := decodeDirectGo_get args rest out' idx hr n f v hj
          refine ⟨w, hw, ?_, hun⟩
          intro hft
          have harith : idx + exCountS (((f0, v0) :: rest).take (n + 1)) =
              idx + exCountS (rest.take n) := by
            simp [exCountS, List.countP_cons, hex]
          rw [harith]
          exact hexp hft

/-- The intermediate values map pairs each exported field name, in
declaration order, with the array element at that field's exported rank:
looking a field's name up in the map yields exactly the element at its rank
(and nothing when the array is too short to reach it).  Distinct field
names, as Go guarantees for a struct, are required. -/
theorem lookupStr_buildValues :
    ∀ (fields : List GoField) (xs : List JVal) (j : Nat) (f : GoField),
    fields[j]? = some f → f.exported = true →
    (fields.map GoField.name).Nodup →
    lookupStr (buildValues fields xs) f.name = xs[exCount (fields.take j)]?
  | [], xs, j, f, hj, hex, hnd => by simp at hj
  | g :: fs, xs, j, f, hj, hex, hnd => by
    rw [List.map_cons] at hnd
    have hnd' := List.nodup_cons.mp hnd
    cases hexg : g.exported with
    | true =>
      cases xs with
      | nil =>
        simp [buildValues, hexg, lookupStr]
      | cons x xr =>
        rcases j with _ | n
        · simp only [List.getElem?_cons_zero, Option.some.injEq] at hj
          subst hj
          simp [buildValues, hexg, lookupStr, exCount]
        · simp only [List.getElem?_cons_succ] at hj
          have hmem : f ∈ fs := List.getElem?_mem hj
          have hne : g.name ≠ f.name := by
            intro hcontra
            exact hnd'.1 (hcontra ▸ List.mem_map_of_mem GoField.name hmem)
          have ih := lookupStr_buildValues fs xr n f hj hex hnd'.2
          simp only [buildValues, hexg, if_true, lookupStr, hne, if_false]
          rw [ih]
          have harith : exCount ((g :: fs).take (n + 1)) = exCount (fs.take n) + 1 := by
            simp [exCount, List.countP_cons, hexg]
          rw [harith]
          simp
    | false =>
      rcases j with _ | n
      · simp only [List.getElem?_cons_zero, Option.some.injEq] at hj
        subst hj
        rw [hexg] at hex
        cases hex
      · simp only [List.getElem?_cons_succ] at hj
        have ih := lookupStr_buildValues fs xs n f hj hex hnd'.2
        have harith : exCount ((g :: fs).take (n + 1)) = exCount (fs.take n) := by
          simp [exCount, List.countP_cons, hexg]
        rw [harith]
        simpa [buildValues, hexg] using ih

/-- The struct-unmarshalling loop of the JSON-roundtrip decoder is
positional over the values map: on success the field at position j keeps
its descriptor; an exported field is decoded from the value bound to its
name (or left unchanged when its name is absent), and an unexported field
is always left unchanged. -/
theorem unmarshalStruct_get (values : List (String × JVal)) :
    ∀ (target out : GoStruct),
    unmarshalStruct values target = .ok out →
    ∀ (j : Nat) (f : GoField) (v : FVal), target[j]? = some (f, v) →
    ∃ w, out[j]? = some (f, w)
      ∧ (f.exported = true →
          (lookupStr values f.name = none → w = v)
          ∧ ∀ jv, lookupStr values f.name = some jv → unmarshalField f.kind jv v = .ok w)
      ∧ (f.exported = false → w = v)
  | [], out, h, j, f, v, hj => by simp at hj
  | (f0, v0) :: rest, out, h, j, f, v, hj => by
    cases hex : f0.exported with
    | true =>
      simp only [unmarshalStruct, hex, if_true] at h
      cases hl : lookupStr values f0.name with
      | none =>
        rw [hl] at h
        have h2 : (match unmarshalStruct values rest with
            | Except.error e => Except.error e
            | Except.ok out => Except.ok ((f0, v0) :: out)) = Except.ok out := h
        cases hr : unmarshalStruct values rest with
        | error e => rw [hr] at h2; cases h2
        | ok out' =>
          rw [hr] at h2
          cases h2
          rcases j with _ | n
          · simp only [List.getElem?_cons_zero, Option.some.injEq] at hj
            obtain ⟨rfl, rfl⟩ : f0 = f ∧ v0 = v := by
              constructor <;> [exact congrArg Prod.fst hj; exact congrArg Prod.snd hj]
            refine ⟨v0, by simp, ?_, fun _ => rfl⟩
            intro _
            refine ⟨fun _ => rfl, ?_⟩
            intro jv hjv
            rw [hl] at hjv
            cases hjv
          · simp only [List.getElem?_cons_succ] at hj ⊢
            exact unmarshalStruct_get values rest out' hr n f v hj
      | some jv0 =>
        rw [hl] at h
        have h2 : (match unmarshalField f0.kind jv0 v0 with
            | Except.error e => Except.error e
            | Except.ok w =>
              match unmarshalStruct values rest with
              | Except.error e => Except.error e
              | Except.ok out => Except.ok ((f0, w) :: out)) = Except.ok out := h
        cases hu : unmarshalField f0.kind jv0 v0 with
        | error e => rw [hu] at h2; cases h2
        | ok w0 =>
          rw [hu] at h2
          cases hr : unmarshalStruct values rest with
          | error e => rw [hr] at h2; cases h2
          | ok out' =>
            rw [hr] at h2
            cases h2
            rcases j with _ | n
            · simp only [List.getElem?_cons_zero, Option.some.injEq] at hj
              obtain ⟨rfl, rfl⟩ : f0 = f ∧ v0 = v := by
                constructor <;> [exact congrArg Prod.fst hj; exact congrArg Prod.snd hj]
              refine ⟨w0, by simp, ?_, ?_⟩
              · intro _
                refine ⟨?_, ?_⟩
                · intro hnone
                  rw [hl] at hnone
                  cases hnone
                · intro jv hjv
                  rw [hl] at hjv
                  cases hjv
                  exact hu
              · intro hfalse
                rw [hex] at hfalse
                cases hfalse
            · simp only [List.getElem?_cons_succ] at hj ⊢
              exact unmarshalStruct_get values rest out' hr n f v hj
    | false =>
      simp only [unmarshalStruct, hex, Bool.false_eq_true, if_false] at h
      cases hr : unmarshalStruct values rest with
      | error e => rw [hr] at h; cases h
      | ok out' =>
        rw [hr] at h
        cases h
        rcases j with _ | n
        · simp only [List.getElem?_cons_zero, Option.some.injEq] at hj
          obtain ⟨rfl, rfl⟩ : f0 = f ∧ v0 = v := by
            constructor <;> [exact congrArg Prod.fst hj; exact congrArg Prod.snd hj]
          refine ⟨v0, by simp, ?_, fun _ => rfl⟩
          intro htrue
          rw [hex] at htrue
          cases htrue
        · simp only [List.getElem?_cons_succ] at hj ⊢
          exact unmarshalStruct_get values rest out' hr n f v hj

/-- C6: both DecodeSidekiqArgs implementations assign JSON array elements to
the exported fields of the target struct in declaration order.  Whenever
decoding succeeds, the field at declaration position j whose exported rank
is r receives the value decoded from array element r (for the JSON-roundtrip
implementation: by the unmarshalling of element r into the old field value,
the field keeping its old value when the array is too short to reach rank
r), and unexported fields keep their previous value without consuming an
array position.  For the JSON-roundtrip implementation the field names are
required to be distinct, as Go guarantees. -/
theorem decodeSidekiqArgs_positional :
    (∀ (args : JVal) (target out : GoStruct),
      DecodeSidekiqArgsDirect args target = .ok out →
      ∀ (j : Nat) (f : GoField) (v : FVal), target[j]? = some (f, v) →
      ∃ w, out[j]? = some (f, w)
        ∧ (f.exported = true →
            decodeFieldDirect f (getIndex args (exCountS (target.take j))) = .ok w)
        ∧ (f.exported = false → w = v))
    ∧ ∀ (xs : List JVal) (target out : GoStruct),
      DecodeSidekiqArgsJson (.jarr xs) target = .ok out →
      ((target.map Prod.fst).map GoField.name).Nodup →
      ∀ (j : Nat) (f : GoField) (v : FVal), target[j]? = some (f, v) →
      ∃ w, out[j]? = some (f, w)
        ∧ (f.exported = true →
            (∀ x, xs[exCountS (target.take j)]? = some x →
              unmarshalField f.kind x v = .ok w)
            ∧ (xs[exCountS (target.take j)]? = none → w = v))
        ∧ (f.exported = false → w = v) := by
  constructor
  · intro args target out h j f v hj
    obtain ⟨w, hw, hexp, hun⟩ := decodeDirectGo_get args target out 0 h j f v hj
    refine ⟨w, hw, ?_, hun⟩
    intro hft
    have := hexp hft
    rwa [Nat.zero_add] at this
  · intro xs target out h hnd j f v hj
    have h' : unmarshalStruct (buildValues (target.map Prod.fst) xs) target = .ok out := h
    obtain ⟨w, hw, hexp, hun⟩ := unmarshalStruct_get _ target out h' j f v hj
    refine ⟨w, hw, ?_, hun⟩
    intro hft
    have hf : (target.map Prod.fst)[j]? = some f := by
      rw [List.getElem?_map, hj]
      rfl
    have hlk := lookupStr_buildValues (target.map Prod.fst) xs j f hf hft hnd
    have hcnt : exCount ((target.map Prod.fst).take j) = exCountS (target.take j) := by
      rw [← List.map_take]
      exact exCount_map_fst (target.take j)
    rw [hcnt] at hlk
    obtain ⟨h1, h2⟩ := hexp hft
    constructor
    · intro x hx
      exact h2 x (by rw [hlk, hx])
    · intro hx
      exact h1 (by rw [hlk, hx])

/-- The three-field target of the positional-decoding witness: an exported
string field, an unexported int field holding 5, and an exported int
field. -/
def wTarget : GoStruct :=
  [(⟨"A", true, .kstr⟩, .fstr ""), (⟨"b", false, .kint⟩, .fint 5),
   (⟨"C", true, .kint⟩, .fint 0)]

/-- The argument array of the positional-decoding witness. -/
def wArgs : List JVal := [.jstr "hi", .jnum 7]

/-- The struct both decoders produce on the witness input: the unexported
field kept its value and did not consume an array position, so the second
exported field received array element 1. -/
def wOut : GoStruct :=
  [(⟨"A", true, .kstr⟩, .fstr "hi"), (⟨"b", false, .kint⟩, .fint 5),
   (⟨"C", true, .kint⟩, .fint 7)]

/-- Concrete instance of positional decoding for both implementations, at
the field of declaration position 2 and exported rank 1. -/
theorem decodeSidekiqArgs_positional_witness :
    (DecodeSidekiqArgsDirect (.jarr wArgs) wTarget = .ok wOut
      ∧ ∃ w, wOut[2]? = some (⟨"C", true, .kint⟩, w)
        ∧ ((⟨"C", true, FKind.kint⟩ : GoField).exported = true →
            decodeFieldDirect ⟨"C", true, .kint⟩
              (getIndex (.jarr wArgs) (exCountS (wTarget.take 2))) = .ok w)
        ∧ ((⟨"C", true, FKind.kint⟩ : GoField).exported = false → w = .fint 0))
    ∧ (DecodeSidekiqArgsJson (.jarr wArgs) wTarget = .ok wOut
      ∧ ((wTarget.map Prod.fst).map GoField.name).Nodup
      ∧ ∃ w, wOut[2]? = some (⟨"C", true, .kint⟩, w)
        ∧ ((⟨"C", true, FKind.kint⟩ : GoField).exported = true →
            (∀ x, wArgs[exCountS (wTarget.take 2)]? = some x →
              unmarshalField FKind.kint x (.fint 0) = .ok w)
            ∧ (wArgs[exCountS (wTarget.take 2)]? = none → w = .fint 0))
        ∧ ((⟨"C", true, FKind.kint⟩ : GoField).exported = false → w = .fint 0)) := by
  have hnd : ((wTarget.map Prod.fst).map GoField.name).Nodup := by decide
  refine ⟨⟨rfl, ?_⟩, rfl, hnd, ?_⟩
  · exact decodeSidekiqArgs_positional.1 (.jarr wArgs) wTarget wOut rfl 2
      ⟨"C", true, .kint⟩ (.fint 0) rfl
  · exact decodeSidekiqArgs_positional.2 wArgs wTarget wOut rfl hnd 2
      ⟨"C", true, .kint⟩ (.fint 0) rfl
